/-
Verification of the TEI parsing core of the Arthron digital edition
(`scripts/tei_parser.py`): the mixed-content walker, apparatus numbering,
section assembly, lexicon extraction and metadata extraction, shallowly
embedded in Lean 4.

The XML element tree (as exposed by lxml) is modelled by `XElem`: an
element has a tag (local name), an attribute list, optional leading text
(`.text`), optional trailing text (`.tail`, the text after the element's
closing tag inside its parent) and a list of children.  Namespaced
attribute keys are written with a prefix, e.g. "xml:id".
-/
import Mathlib

namespace Arthron

inductive XElem : Type where
  | mk (tag : String) (attrs : List (String × String)) (txt : Option String)
       (tl : Option String) (children : List XElem) : XElem
deriving Repr

def XElem.tag : XElem → String
  | .mk t _ _ _ _ => t

def XElem.attrs : XElem → List (String × String)
  | .mk _ a _ _ _ => a

def XElem.text : XElem → Option String
  | .mk _ _ tx _ _ => tx

def XElem.tail : XElem → Option String
  | .mk _ _ _ tl _ => tl

def XElem.children : XElem → List XElem
  | .mk _ _ _ _ ch => ch

/-- Python truthiness of an optional string (`if s:`): `None` and `''` are falsy. -/
def optTruthy : Option String → Bool
  | none => false
  | some s => s ≠ ""

/-- Model of `elem.get(key)`: first attribute with the given key, if any. -/
def getAttr (e : XElem) (k : String) : Option String :=
  (e.attrs.find? (fun p => p.1 == k)).map (·.2)

/-- Model of `elem.get(key, default)`. -/
def getAttrD (e : XElem) (k d : String) : String :=
  (getAttr e k).getD d

/-- Python `str.replace`, character-list worker.  The fuel argument keeps the
recursion structural (fuel = length of the scanned list always suffices since
every step consumes at least one character). -/
def replaceCharsAux (pat rep : List Char) : Nat → List Char → List Char
  | 0, l => l
  | _ + 1, [] => []
  | fuel + 1, c :: cs =>
    if pat ≠ [] ∧ pat.isPrefixOf (c :: cs) then
      rep ++ replaceCharsAux pat rep fuel (cs.drop (pat.length - 1))
    else
      c :: replaceCharsAux pat rep fuel cs

/-- Python `s.replace(pat, rep)` (every occurrence, left to right). -/
def pyReplace (s pat rep : String) : String :=
  ⟨replaceCharsAux pat.data rep.data s.data.length s.data⟩

/-- Model of `.replace('#', '')` as used throughout the parser. -/
def stripHash (s : String) : String :=
  pyReplace s "#" ""

/-- Python's default whitespace class for `str.strip` (ASCII portion). -/
def isSpaceChar (c : Char) : Bool :=
  c = ' ' ∨ c = '\t' ∨ c = '\n' ∨ c = '\r' ∨ c = '\x0b' ∨ c = '\x0c'

/-- Python `s.strip()`: drop leading and trailing whitespace. -/
def pyStrip (s : String) : String :=
  ⟨((s.data.dropWhile isSpaceChar).reverse.dropWhile isSpaceChar).reverse⟩

/-- The `{http://www.w3.org/XML/1998/namespace}id` attribute key. -/
def xmlIdAttr : String := "xml:id"

/-- The `{http://www.w3.org/XML/1998/namespace}lang` attribute key. -/
def xmlLangAttr : String := "xml:lang"

mutual
/-- lxml `elem.itertext()` joined: leading text, then each child's full text
followed by that child's tail. -/
def itertext : XElem → String
  | .mk _ _ tx _ ch => tx.getD "" ++ itertextList ch
def itertextList : List XElem → String
  | [] => ""
  | c :: rest => itertext c ++ c.tail.getD "" ++ itertextList rest
end

/-- Model of `elem.find('tei:t')`: first direct child with the given tag. -/
def findChild (e : XElem) (t : String) : Option XElem :=
  e.children.find? (fun c => c.tag == t)

/-- Model of `elem.findall('tei:t')`: all direct children with the given tag, in order. -/
def findChildren (e : XElem) (t : String) : List XElem :=
  e.children.filter (fun c => c.tag == t)

/-- The `ContentNode` dataclass of `tei_parser.py` (all optional fields default
to `None`). -/
structure ContentNode where
  type : String
  value : Option String := none
  id : Option String := none
  index : Option Nat := none
  lem : Option String := none
  rdg_s : Option String := none
  note : Option String := none
  target : Option String := none
  text : Option String := none
  ed : Option String := none
  n : Option String := none
  ka : Option String := none
  grc : Option String := none
deriving Repr, DecidableEq

/-- One `{'wit': .., 'text': .., 'note': ..}` reading dict. -/
structure Reading where
  wit : String
  text : String
  note : Option String
deriving Repr, DecidableEq

/-- The `AppEntry` dataclass. -/
structure AppEntry where
  id : String
  index : Nat
  lem : String
  lem_wit : Option String
  readings : List Reading
  note : Option String := none
deriving Repr, DecidableEq

def textNode (v : String) : ContentNode := { type := "text", value := some v }

/-- One reading child of an `app` element, as built in the `rdg` loop:
witness attribute with `#` stripped, stripped inner text (suppressed when a
truthy note is present), and the first direct `note` child's text. -/
def readingOf (rdg : XElem) : Reading :=
  let wit := stripHash (getAttrD rdg "wit" "")
  let rdgText := pyStrip (itertext rdg)
  let note := (findChild rdg "note").bind XElem.text
  { wit := wit, text := if optTruthy note then "" else rdgText, note := note }

/-- The `rdg_s_text` accumulation of the `rdg` loop: the last reading whose
witness is `S` and whose stripped text is nonempty overwrites the value. -/
def rdgSFold (rdgs : List XElem) : Option String :=
  rdgs.foldl
    (fun acc rdg =>
      let wit := stripHash (getAttrD rdg "wit" "")
      let t := pyStrip (itertext rdg)
      if wit = "S" ∧ t ≠ "" then some t else acc)
    none

/-- The default apparatus id `f'app.{app_counter}'` (kept irreducible so that
proofs never try to unfold `toString` on a symbolic counter). -/
@[irreducible] def appDefaultId (c : Nat) : String :=
  "app." ++ toString c

/-- The one-sibling lookahead of the `mentioned` handler as the code performs
it: `elem.getnext()` is a `gloss` and has a direct `foreign` child (of any
language), in which case `grc` is that child's concatenated inner text. -/
def grcLookahead : Option XElem → Option String
  | some sib =>
    if sib.tag = "gloss" then (findChild sib "foreign").map itertext
    else none
  | none => none

mutual
/-- Model of `process_element(elem)` of `TEIParser._parse_section_content`, with the
next sibling (`elem.getnext()`) passed explicitly.  Returns the emitted
content nodes, the emitted apparatus entries and the updated counter. -/
def processElement : Nat → XElem → Option XElem →
    List ContentNode × List AppEntry × Nat
  | c, XElem.mk t attrs tx tl ch, next =>
    let e := XElem.mk t attrs tx tl ch
    if t = "app" then
      let c' := c + 1
      let appId := getAttrD e xmlIdAttr (appDefaultId c')
      let lemElem := findChild e "lem"
      let lemText := match lemElem with
        | some l => itertext l
        | none => ""
      let lemWit := lemElem.map (fun l => stripHash (getAttrD l "wit" ""))
      let rdgs := findChildren e "rdg"
      let readings := rdgs.map readingOf
      ([{ type := "app", id := some appId, index := some c', lem := some lemText,
          rdg_s := rdgSFold rdgs,
          note := readings.head?.bind Reading.note }],
       [{ id := appId, index := c', lem := lemText, lem_wit := lemWit,
          readings := readings }],
       c')
    else if t = "term" then
      ([{ type := "term", target := some (stripHash (getAttrD e "target" "")),
          text := some (itertext e) }], [], c)
    else if t = "pb" then
      ([{ type := "folio", ed := some (stripHash (getAttrD e "ed" "")),
          n := some (getAttrD e "n" "") }], [], c)
    else if t = "milestone" ∧ getAttr e "unit" = some "folio" then
      ([{ type := "folio", ed := some (stripHash (getAttrD e "ed" "")),
          n := some (getAttrD e "n" "") }], [], c)
    else if t = "cb" then
      let nv := getAttrD e "n" ""
      ([{ type := "folio", ed := some (stripHash (getAttrD e "ed" "")),
          n := some (if nv ≠ "" then nv else "") }], [], c)
    else if t = "foreign" ∧ getAttr e xmlLangAttr = some "grc" then
      ([{ type := "greek", text := some (itertext e) }], [], c)
    else if t = "mentioned" then
      ([{ type := "mentioned", ka := some (itertext e), grc := grcLookahead next }],
       [], c)
    else if t = "gloss" then
      ([], [], c)
    else if t = "persName" ∨ t = "q" then
      ([textNode (itertext e)], [], c)
    else
      let lead := if optTruthy tx then [textNode (tx.getD "")] else []
      let r := processList c ch
      (lead ++ r.1, r.2.1, r.2.2)
termination_by c e next => sizeOf e

/-- The child loop shared by the paragraph walk and the generic fallback:
process each child (its following sibling supplying the lookahead), then
emit its tail text when truthy. -/
def processList : Nat → List XElem → List ContentNode × List AppEntry × Nat
  | c, [] => ([], [], c)
  | c, e :: rest =>
    let r1 := processElement c e rest.head?
    let tailNodes := if optTruthy e.tail then [textNode (e.tail.getD "")] else []
    let r2 := processList r1.2.2 rest
    (r1.1 ++ tailNodes ++ r2.1, r1.2.1 ++ r2.2.1, r2.2.2)
termination_by c es => sizeOf es
end

mutual
/-- All strict descendants of an element, in document (preorder) order. -/
def descendants : XElem → List XElem
  | .mk _ _ _ _ ch => descList ch
def descList : List XElem → List XElem
  | [] => []
  | c :: rest => c :: (descendants c ++ descList rest)
end

/-- The text nodes directly inside an element, in document order (xpath
`text()`): the element's leading text followed by each child's tail. -/
def textNodes (e : XElem) : List String :=
  (match e.text with
   | some t => [t]
   | none => []) ++ e.children.filterMap XElem.tail

/-- Model of `div.findall('.//tei:p')`: every descendant `p`, in document order. -/
def descPs (e : XElem) : List XElem :=
  (descendants e).filter (fun c => c.tag == "p")

/-- The per-paragraph step of `_parse_section_content`: leading text when
truthy, then the child loop. -/
def processP (c : Nat) (p : XElem) : List ContentNode × List AppEntry × Nat :=
  let lead := if optTruthy p.text then [textNode (p.text.getD "")] else []
  let r := processList c p.children
  (lead ++ r.1, r.2.1, r.2.2)

/-- The `for p in div.findall('.//tei:p')` loop, threading the counter. -/
def processPs : Nat → List XElem → List ContentNode × List AppEntry × Nat
  | c, [] => ([], [], c)
  | c, p :: rest =>
    let r1 := processP c p
    let r2 := processPs r1.2.2 rest
    (r1.1 ++ r2.1, r1.2.1 ++ r2.2.1, r2.2.2)

/-- Model of `TEIParser._parse_section_content(div, app_counter)`. -/
def parseSectionContent (div : XElem) (c : Nat) :
    List ContentNode × List AppEntry × Nat :=
  processPs c (descPs div)

/-- One `{'ed': .., 'n': ..}` folio dict of `get_sections`. -/
structure Folio where
  ed : String
  n : String
deriving Repr, DecidableEq

/-- The folio collection of `get_sections`: all direct `pb` children first,
then all direct `milestone[@unit="folio"]` children. -/
def sectionFolios (div : XElem) : List Folio :=
  (findChildren div "pb").map
    (fun pb => { ed := stripHash (getAttrD pb "ed" ""), n := getAttrD pb "n" "" })
  ++ (div.children.filter
        (fun m => m.tag == "milestone" ∧ getAttr m "unit" == some "folio")).map
    (fun ms => { ed := stripHash (getAttrD ms "ed" ""), n := getAttrD ms "n" "" })

/-- The `Section` dataclass. -/
structure Section where
  n : String
  xml_id : String
  urn : String
  incipit : String
  content : List ContentNode
  folios : List Folio
  apparatus : List AppEntry
deriving Repr, DecidableEq

/-- Model of the xpath `//tei:idno[@type="cts-urn"]/text()`. -/
def ctsUrnTexts (root : XElem) : List String :=
  ((root :: descendants root).filter
    (fun e => e.tag == "idno" ∧ getAttr e "type" == some "cts-urn")).flatMap textNodes

/-- Model of `TEIParser.get_cts_urn`: first text of a `idno[@type="cts-urn"]`
element anywhere in the document, with a fixed fallback. -/
def get_cts_urn (root : XElem) : String :=
  (ctsUrnTexts root).head?.getD "urn:cts:georgian:shanidze.arthron.ed2025"

/-- The per-`div` body of the `get_sections` loop. -/
def mkSection (baseUrn : String) (c : Nat) (div : XElem) : Section × Nat :=
  let n := getAttrD div "n" ""
  let xmlId := getAttrD div xmlIdAttr ("sec." ++ n)
  let r := parseSectionContent div c
  let textContent := String.join
    ((r.1.filter (fun nd => nd.type == "text" ∧ optTruthy nd.value)).map
      (fun nd => nd.value.getD ""))
  ({ n := n, xml_id := xmlId, urn := baseUrn ++ ":" ++ n,
     incipit := if textContent ≠ "" then pyStrip (textContent.take 50) else "",
     content := r.1, folios := sectionFolios div, apparatus := r.2.1 },
   r.2.2)

/-- The section loop of `get_sections`, threading the apparatus counter. -/
def sectionsGo (baseUrn : String) : Nat → List XElem → List Section
  | _, [] => []
  | c, d :: rest =>
    let s := mkSection baseUrn c d
    s.1 :: sectionsGo baseUrn s.2 rest

/-- Model of the xpath `//tei:body/tei:div[@type="section"]`. -/
def sectionDivs (root : XElem) : List XElem :=
  ((root :: descendants root).filter (fun e => e.tag == "body")).flatMap
    (fun b => b.children.filter
      (fun d => d.tag == "div" ∧ getAttr d "type" == some "section"))

/-- Model of `TEIParser.get_sections`. -/
def get_sections (root : XElem) : List Section :=
  sectionsGo (get_cts_urn root) 0 (sectionDivs root)

/-- The metadata mapping returned by `TEIParser.get_metadata`. -/
structure Metadata where
  editor : String
  publication_place : String
  publication_year : String
  source_title : String
  cts_urn : String
  github_url : String
deriving Repr, DecidableEq

/-- Model of the xpath `//tei:editor[@role="scholarly"]/tei:persName/text()`. -/
def editorTexts (root : XElem) : List String :=
  ((root :: descendants root).filter
    (fun e => e.tag == "editor" ∧ getAttr e "role" == some "scholarly")).flatMap
    (fun e => (e.children.filter (fun ch => ch.tag == "persName")).flatMap textNodes)

/-- Model of `TEIParser.get_metadata`. -/
def get_metadata (root : XElem) : Metadata :=
  { editor := (editorTexts root).head?.getD "აკაკი შანიძე",
    publication_place := "თბილისი",
    publication_year := "1990",
    source_title := "ძველი ქართული ენის კათედრის შრომები, 32",
    cts_urn := get_cts_urn root,
    github_url := "https://github.com" }

/-- Python `str.split`, character-list worker with structural fuel. -/
def splitCharsAux (pat : List Char) : Nat → List Char → List (List Char)
  | 0, l => [l]
  | _ + 1, [] => [[]]
  | fuel + 1, c :: cs =>
    if pat ≠ [] ∧ pat.isPrefixOf (c :: cs) then
      [] :: splitCharsAux pat fuel (cs.drop (pat.length - 1))
    else
      match splitCharsAux pat fuel cs with
      | [] => [[c]]
      | h :: t => (c :: h) :: t

/-- Python `s.split(pat)` for a nonempty pattern. -/
def pySplit (s pat : String) : List String :=
  (splitCharsAux pat.data s.data.length s.data).map (fun l => ⟨l⟩)

/-- The `LexiconEntry` dataclass (`lemma_text` models the Python field `lemma`,
which is a Lean keyword). -/
structure LexiconEntry where
  id : String
  lemma_text : String
  pos : Option String
  greek : Option String
  senses : List (String × String)
  examples : List (String × String)
  occurrences : List String
  see_also : List String
  note : Option String
  occurrence_count : Nat := 0
deriving Repr, DecidableEq

/-- Model of `.//tei:etym/tei:mentioned/text()` relative to an entry. -/
def etymMentionedTexts (entry : XElem) : List String :=
  ((descendants entry).filter (fun e => e.tag == "etym")).flatMap
    (fun etym => (etym.children.filter (fun m => m.tag == "mentioned")).flatMap textNodes)

/-- Model of `.//tei:cit[@type="translation"]/tei:quote/text()` relative to an entry. -/
def translationQuoteTexts (entry : XElem) : List String :=
  ((descendants entry).filter
    (fun e => e.tag == "cit" ∧ getAttr e "type" == some "translation")).flatMap
    (fun cit => (cit.children.filter (fun q => q.tag == "quote")).flatMap textNodes)

/-- The Greek-equivalent fallback chain of `get_lexicon_entries`. -/
def lexGreek (entry : XElem) : Option String :=
  let greek := etymMentionedTexts entry
  let greek := if greek = [] then translationQuoteTexts entry else greek
  greek.head?

/-- Model of `.//tei:cit/tei:bibl/tei:ref/@target` relative to an entry. -/
def citRefTargets (entry : XElem) : List String :=
  ((descendants entry).filter (fun e => e.tag == "cit")).flatMap
    (fun cit => (cit.children.filter (fun b => b.tag == "bibl")).flatMap
      (fun b => (b.children.filter (fun r => r.tag == "ref")).filterMap
        (fun r => getAttr r "target")))

/-- The occurrence extraction: targets containing `sec.` contribute the part
after the last `sec.` (Python `ref.split('sec.')[-1]`). -/
def lexOccurrences (entry : XElem) : List String :=
  (citRefTargets entry).filterMap
    (fun ref =>
      let parts := pySplit ref "sec."
      if parts.length > 1 then parts.getLast? else none)

/-- Sense extraction: each descendant `sense` yields its first direct
`def[@xml:lang="ka"]` text and first direct `def[@xml:lang="en"]` text. -/
def lexSenses (entry : XElem) : List (String × String) :=
  ((descendants entry).filter (fun e => e.tag == "sense")).map
    (fun sense =>
      let defKa := (sense.children.filter
        (fun d => d.tag == "def" ∧ getAttr d xmlLangAttr == some "ka")).flatMap textNodes
      let defEn := (sense.children.filter
        (fun d => d.tag == "def" ∧ getAttr d xmlLangAttr == some "en")).flatMap textNodes
      (defKa.head?.getD "", defEn.head?.getD ""))

/-- Example extraction: descendant `cit[@type="example"]` elements with a
quote; an example without a quote is skipped. -/
def lexExamples (entry : XElem) : List (String × String) :=
  ((descendants entry).filter
    (fun e => e.tag == "cit" ∧ getAttr e "type" == some "example")).filterMap
    (fun cit =>
      let quote := (cit.children.filter (fun q => q.tag == "quote")).flatMap textNodes
      let ref := (cit.children.filter (fun b => b.tag == "bibl")).flatMap
        (fun b => (b.children.filter (fun r => r.tag == "ref")).flatMap textNodes)
      match quote.head? with
      | some q => some (q, ref.head?.getD "")
      | none => none)

/-- Cross-reference extraction: each descendant `xr`'s first direct `ref`
target, `#` stripped; an `xr` without a target is skipped. -/
def lexSeeAlso (entry : XElem) : List String :=
  ((descendants entry).filter (fun e => e.tag == "xr")).filterMap
    (fun xr =>
      (((xr.children.filter (fun r => r.tag == "ref")).filterMap
        (fun r => getAttr r "target")).head?).map stripHash)

/-- The per-entry body of the `get_lexicon_entries` loop. -/
def lexiconEntryOf (entry : XElem) : LexiconEntry :=
  let entryId := getAttrD entry xmlIdAttr ""
  let orth := ((descendants entry).filter
    (fun e => e.tag == "form" ∧ getAttr e "type" == some "lemma")).flatMap
    (fun f => (f.children.filter (fun o => o.tag == "orth")).flatMap textNodes)
  let pos := ((descendants entry).filter (fun e => e.tag == "pos")).flatMap textNodes
  let occurrences := lexOccurrences entry
  { id := pyReplace entryId "lex." "",
    lemma_text := orth.head?.getD "",
    pos := pos.head?,
    greek := lexGreek entry,
    senses := lexSenses entry,
    examples := lexExamples entry,
    occurrences := occurrences,
    see_also := lexSeeAlso entry,
    note := ((entry.children.filter (fun nt => nt.tag == "note")).flatMap textNodes).head?,
    occurrence_count := occurrences.length }

/-- Model of `TEIParser.get_lexicon_entries`: every `//tei:entry`, extracted in
document order, then sorted by lemma. -/
def get_lexicon_entries (root : XElem) : List LexiconEntry :=
  (((root :: descendants root).filter (fun e => e.tag == "entry")).map
    lexiconEntryOf).mergeSort (fun a b => a.lemma_text ≤ b.lemma_text)

/-!
### Spec-side definitions

Definitions in this block transcribe the specification's wording (not the
code); they are compared against the code-side definitions above in the
refinement claims, or used to state claims that the code turns out to
violate.
-/

/-- Construction of one folio dict from a marker element (shared shape of
the `pb`/`milestone` dicts in `get_sections`). -/
def folioOf (e : XElem) : Folio :=
  { ed := stripHash (getAttrD e "ed" ""), n := getAttrD e "n" "" }

/-- Whether an element is a folio marker in the sense of the section
assembler: a page break or a folio milestone. -/
def isFolioMarker (e : XElem) : Bool :=
  e.tag == "pb" ∨ (e.tag == "milestone" ∧ getAttr e "unit" == some "folio")

/-- Modelled from the spec: "collect leading folio markers (both page-break
and milestone forms) that appear as direct children before the running
text", in document order — the direct children up to the first non-marker,
each converted to a folio dict. -/
def specLeadingFolios (div : XElem) : List Folio :=
  (div.children.takeWhile isFolioMarker).map folioOf

/-- Modelled from the spec: the publication-place field of the document
header (the spec says it is read from the document with a fixed fallback;
the TEI element carrying it is `pubPlace`). -/
def pubPlaceTexts (root : XElem) : List String :=
  ((root :: descendants root).filter (fun e => e.tag == "pubPlace")).flatMap textNodes

/-- Modelled from the spec: the publication-year field of the document
header (TEI element `date`). -/
def pubDateTexts (root : XElem) : List String :=
  ((root :: descendants root).filter (fun e => e.tag == "date")).flatMap textNodes

/-- Modelled from the spec: the source-title field of the document header
(TEI element `title`). -/
def sourceTitleTexts (root : XElem) : List String :=
  ((root :: descendants root).filter (fun e => e.tag == "title")).flatMap textNodes

/-- Modelled from the spec: the one-level lookahead as the spec words it —
"if the immediately following sibling is a gloss element containing a
secondary-script span, that span's text becomes `grc`, otherwise `grc` is
absent". -/
def specGrcLookahead : Option XElem → Option String
  | some sib =>
    if sib.tag = "gloss" then
      ((sib.children.find?
        (fun f => f.tag == "foreign" ∧ getAttr f xmlLangAttr == some "grc")).map itertext)
    else none
  | none => none

/-- One source-order unit of a section's running text, as described by the
spec's dispatch table.  A unit records only identifying content; derived
fields (`index`, `rdg_s`, `note`, `grc`) are covered by other claims. -/
inductive SpecUnit : Type where
  | txt (v : String)
  | app (lem : String)
  | term (target text : String)
  | folio (ed n : String)
  | greek (text : String)
  | mentioned (ka : String)
deriving Repr, DecidableEq

mutual
/-- Modelled from the spec: the dispatch table of the mixed-content walker,
one row per element kind, emitting the source-order units. -/
def specWalkElement : XElem → Option XElem → List SpecUnit
  | XElem.mk t attrs tx tl ch, next =>
    let e := XElem.mk t attrs tx tl ch
    if t = "app" then
      [SpecUnit.app (match findChild e "lem" with
        | some l => itertext l
        | none => "")]
    else if t = "term" then
      [SpecUnit.term (stripHash (getAttrD e "target" "")) (itertext e)]
    else if t = "pb" then
      [SpecUnit.folio (stripHash (getAttrD e "ed" "")) (getAttrD e "n" "")]
    else if t = "milestone" ∧ getAttr e "unit" = some "folio" then
      [SpecUnit.folio (stripHash (getAttrD e "ed" "")) (getAttrD e "n" "")]
    else if t = "cb" then
      [SpecUnit.folio (stripHash (getAttrD e "ed" "")) (getAttrD e "n" "")]
    else if t = "foreign" ∧ getAttr e xmlLangAttr = some "grc" then
      [SpecUnit.greek (itertext e)]
    else if t = "mentioned" then
      [SpecUnit.mentioned (itertext e)]
    else if t = "gloss" then
      []
    else if t = "persName" ∨ t = "q" then
      [SpecUnit.txt (itertext e)]
    else
      (if optTruthy tx then [SpecUnit.txt (tx.getD "")] else []) ++ specWalkList ch
termination_by e next => sizeOf e

/-- Modelled from the spec: "recurses into each child (applying this same
dispatch), then emits a Text node for each child's trailing/tail text". -/
def specWalkList : List XElem → List SpecUnit
  | [] => []
  | e :: rest =>
    specWalkElement e rest.head?
      ++ (if optTruthy e.tail then [SpecUnit.txt (e.tail.getD "")] else [])
      ++ specWalkList rest
termination_by es => sizeOf es
end

/-- Modelled from the spec: the unit sequence of one paragraph-level block —
"leading text of each block and tail text of each top-level child inside it
are likewise preserved as Text nodes". -/
def specBlockUnits (p : XElem) : List SpecUnit :=
  (if optTruthy p.text then [SpecUnit.txt (p.text.getD "")] else []) ++ specWalkList p.children

mutual
/-- The maximal paragraph-level blocks inside an element: descend until the
first `p` on each branch and collect it, without searching inside it (so
each block is visited exactly once). -/
def maximalPs : XElem → List XElem
  | .mk _ _ _ _ ch => maximalPsList ch
def maximalPsList : List XElem → List XElem
  | [] => []
  | c :: rest => (if c.tag = "p" then [c] else maximalPs c) ++ maximalPsList rest
end

/-- Modelled from the spec: "the Walker is invoked once per paragraph-level
block inside a section, in order" — the section's unit sequence is the
concatenation of its blocks' unit sequences. -/
def specSectionUnits (div : XElem) : List SpecUnit :=
  (maximalPs div).flatMap specBlockUnits

/-- Projection of a produced ContentNode to its source-order unit. -/
def nodeKey (nd : ContentNode) : SpecUnit :=
  if nd.type = "text" then SpecUnit.txt (nd.value.getD "")
  else if nd.type = "app" then SpecUnit.app (nd.lem.getD "")
  else if nd.type = "term" then SpecUnit.term (nd.target.getD "") (nd.text.getD "")
  else if nd.type = "folio" then SpecUnit.folio (nd.ed.getD "") (nd.n.getD "")
  else if nd.type = "greek" then SpecUnit.greek (nd.text.getD "")
  else SpecUnit.mentioned (nd.ka.getD "")

/-- No paragraph block of the section contains another paragraph block. -/
def noNestedP (div : XElem) : Bool :=
  (descPs div).all (fun p => (descPs p).isEmpty)

/-- Claim C2 as stated: for every section and incoming counter value, the
walker's ContentNode sequence projects exactly to the source-order unit
sequence the spec prescribes (nothing dropped, reordered or duplicated). -/
def orderRoundTripClaim : Prop :=
  ∀ (div : XElem) (c : Nat),
    (parseSectionContent div c).1.map nodeKey = specSectionUnits div

/-- Claim C3 as stated: every `mentioned` element becomes exactly one
Mentioned node whose `grc` is resolved by the spec's one-sibling lookahead
(a following gloss containing a secondary-script span). -/
def mentionedGrcClaim : Prop :=
  ∀ (c : Nat) (e : XElem) (next : Option XElem), e.tag = "mentioned" →
    (processElement c e next).1
      = [{ type := "mentioned", ka := some (itertext e), grc := specGrcLookahead next }]

/-- Claim C4 as stated: for every `app` element, one App node and one
AppEntry are produced; readings are extracted in source order with a noted
reading's displayed text suppressed; and the text of every `S`-witness
reading that has text is captured as the App node's `rdg_s`. -/
def appExtractionClaim : Prop :=
  ∀ (c : Nat) (e : XElem) (next : Option XElem), e.tag = "app" →
    ∃ nd entry, (processElement c e next).1 = [nd]
      ∧ (processElement c e next).2.1 = [entry]
      ∧ entry.readings = (findChildren e "rdg").map readingOf
      ∧ (∀ r ∈ entry.readings, optTruthy r.note → r.text = "")
      ∧ (∀ rdg ∈ findChildren e "rdg",
          stripHash (getAttrD rdg "wit" "") = "S" → pyStrip (itertext rdg) ≠ "" →
            nd.rdg_s = some (pyStrip (itertext rdg)))

/-- Claim C5 as stated: each of the editor, place, year and title fields is
read from the document header, with its fixed fallback used only when the
field is absent. -/
def metadataReadsClaim : Prop :=
  ∀ root : XElem,
    (editorTexts root ≠ [] →
      some (get_metadata root).editor = (editorTexts root).head?)
    ∧ (pubPlaceTexts root ≠ [] →
      some (get_metadata root).publication_place = (pubPlaceTexts root).head?)
    ∧ (pubDateTexts root ≠ [] →
      some (get_metadata root).publication_year = (pubDateTexts root).head?)
    ∧ (sourceTitleTexts root ≠ [] →
      some (get_metadata root).source_title = (sourceTitleTexts root).head?)

/-- Claim C6 as stated: a section's folio list consists of exactly the
folio markers appearing as direct children before the running text, in
document order. -/
def leadingFoliosClaim : Prop :=
  ∀ (b : String) (c : Nat) (div : XElem),
    (mkSection b c div).1.folios = specLeadingFolios div

/-!
### Concrete instances

Small documents and elements used to witness or refute the claims.
-/

/-- A section div whose paragraph contains a nested paragraph: the inner
block's text is walked twice. -/
def c2exDiv : XElem :=
  XElem.mk "div" [] none none
    [XElem.mk "p" [] (some "A") none [XElem.mk "p" [] (some "B") none []]]

/-- A section div with one ordinary paragraph mixing text and markup. -/
def c2exGoodDiv : XElem :=
  XElem.mk "div" [] none none
    [XElem.mk "p" [] (some "A ") none
      [XElem.mk "term" [("target", "#lex.x")] (some "B") (some " C") [],
       XElem.mk "pb" [("ed", "#A"), ("n", "3r")] none (some "D") []]]

/-- A mentioned element. -/
def c3exMentioned : XElem := XElem.mk "mentioned" [] (some "x") none []

/-- A gloss whose foreign child carries no language marking at all. -/
def c3exGloss : XElem :=
  XElem.mk "gloss" [] none none [XElem.mk "foreign" [] (some "abc") none []]

/-- Scenario C instances: a mentioned term with a Greek gloss sibling. -/
def c3exMentionedKa : XElem := XElem.mk "mentioned" [] (some "ღმერთი") none []

/-- The Greek gloss of Scenario C. -/
def c3exGlossGrc : XElem :=
  XElem.mk "gloss" [] none none
    [XElem.mk "foreign" [("xml:lang", "grc")] (some "θεός") none []]

/-- An apparatus element with two `S` readings that both have text. -/
def c4exApp : XElem :=
  XElem.mk "app" [] none none
    [XElem.mk "lem" [] (some "L") none [],
     XElem.mk "rdg" [("wit", "#S")] (some "x") none [],
     XElem.mk "rdg" [("wit", "#S")] (some "y") none []]

/-- Scenario A: one apparatus group with lemma "ᲮᲕᲔᲬᲬᲐ" and readings from
witnesses `A` and `S`. -/
def c4exScenarioA : XElem :=
  XElem.mk "app" [] none none
    [XElem.mk "lem" [("wit", "#S")] (some "ᲮᲕᲔᲬᲬᲐ") none [],
     XElem.mk "rdg" [("wit", "#A")] (some "ᲮᲐᲬᲬᲐ") none [],
     XElem.mk "rdg" [("wit", "#S")] (some "ᲮᲕᲔᲬᲬᲐ") none []]

/-- A document whose header carries an explicit publication place. -/
def c5exDoc : XElem :=
  XElem.mk "TEI" [] none none [XElem.mk "pubPlace" [] (some "Leipzig") none []]

/-- A section div whose folio markers are a milestone followed by a page
break, in that document order. -/
def c6exDiv : XElem :=
  XElem.mk "div" [("n", "1")] none none
    [XElem.mk "milestone" [("unit", "folio"), ("ed", "#A"), ("n", "3r")] none none [],
     XElem.mk "pb" [("ed", "#B"), ("n", "12")] none none []]

/-- A lexicon entry whose etymology mentions a term. -/
def c7exEntry1 : XElem :=
  XElem.mk "entry" [] none none
    [XElem.mk "etym" [] none none [XElem.mk "mentioned" [] (some "θ") none []]]

/-- A lexicon entry with no etymology but a translation citation. -/
def c7exEntry2 : XElem :=
  XElem.mk "entry" [] none none
    [XElem.mk "cit" [("type", "translation")] none none
      [XElem.mk "quote" [] (some "q") none []]]

/-- A lexicon entry with neither etymology nor translation citation. -/
def c7exEntry3 : XElem := XElem.mk "entry" [] none none []

/-- An element of an unrecognized tag with leading text, a child and a
child tail. -/
def c8exUnknown : XElem :=
  XElem.mk "seg" [] (some "a") none
    [XElem.mk "pb" [("ed", "#A"), ("n", "5")] none (some "t") []]

/-- A cross-reference element with no target attribute. -/
def c8exTerm : XElem := XElem.mk "term" [] (some "x") none []

/-- An apparatus element whose first reading has no note while the second
carries one. -/
def c9exApp : XElem :=
  XElem.mk "app" [] none none
    [XElem.mk "lem" [] (some "L") none [],
     XElem.mk "rdg" [("wit", "#A")] (some "x") none [],
     XElem.mk "rdg" [("wit", "#B")] none none
       [XElem.mk "note" [] (some "nb") none []]]

/-!
### Counter threading and apparatus numbering

The walker advances the apparatus counter by exactly the number of
apparatus entries it emits, the entry indices are consecutive starting
just above the incoming counter, and the `app`-typed content nodes mirror
the apparatus entries index for index.
-/

set_option maxHeartbeats 2000000

mutual
theorem processElement_inv (c : Nat) (e : XElem) (next : Option XElem) :
    (processElement c e next).2.2 = c + (processElement c e next).2.1.length
    ∧ (processElement c e next).2.1.map AppEntry.index
        = List.range' (c + 1) (processElement c e next).2.1.length
    ∧ ((processElement c e next).1.filter (fun nd => nd.type == "app")).map ContentNode.index
        = (processElement c e next).2.1.map (fun a => some a.index) := by
  cases e with
  | mk t attrs tx tl ch =>
    rw [processElement.eq_def]
    dsimp only
    split_ifs
    all_goals try (simp [List.range', textNode]; done)
    all_goals {
      have hch := processList_inv c ch
      rcases hch with ⟨ha, hb, hc⟩
      refine ⟨?_, ?_, ?_⟩
      · simpa using ha
      · simpa using hb
      · simp only [List.filter_append, List.map_append]
        have hlead : ((if optTruthy tx then [textNode (tx.getD "")] else []).filter
            (fun nd => nd.type == "app")) = [] := by
          split_ifs <;> simp [textNode]
        simpa [hlead] using hc }
termination_by sizeOf e

theorem processList_inv (c : Nat) (es : List XElem) :
    (processList c es).2.2 = c + (processList c es).2.1.length
    ∧ (processList c es).2.1.map AppEntry.index
        = List.range' (c + 1) (processList c es).2.1.length
    ∧ ((processList c es).1.filter (fun nd => nd.type == "app")).map ContentNode.index
        = (processList c es).2.1.map (fun a => some a.index) := by
  cases es with
  | nil => simp [processList.eq_def]
  | cons e rest =>
    rw [processList.eq_def]
    have h1 := processElement_inv c e rest.head?
    have h2 := processList_inv (processElement c e rest.head?).2.2 rest
    rcases h1 with ⟨h1a, h1b, h1c⟩
    rcases h2 with ⟨h2a, h2b, h2c⟩
    refine ⟨?_, ?_, ?_⟩
    · simp only [List.length_append]
      omega
    · simp only [List.map_append, List.length_append]
      rw [h1b, h2b, h1a]
      have : c + (processElement c e rest.head?).2.1.length + 1
          = c + 1 + (processElement c e rest.head?).2.1.length := by omega
      rw [this, List.range'_append_1]
      ring_nf
    · simp only [List.filter_append, List.map_append]
      have htail : ((if optTruthy e.tail then [textNode (e.tail.getD "")] else []).filter
          (fun nd => nd.type == "app")) = [] := by
        split_ifs <;> simp [textNode]
      rw [htail]
      simp [h1c, h2c]
termination_by sizeOf es
end

theorem processP_inv (c : Nat) (p : XElem) :
    (processP c p).2.2 = c + (processP c p).2.1.length
    ∧ (processP c p).2.1.map AppEntry.index
        = List.range' (c + 1) (processP c p).2.1.length
    ∧ ((processP c p).1.filter (fun nd => nd.type == "app")).map ContentNode.index
        = (processP c p).2.1.map (fun a => some a.index) := by
  have h := processList_inv c p.children
  rcases h with ⟨ha, hb, hc⟩
  unfold processP
  refine ⟨by simpa using ha, by simpa using hb, ?_⟩
  simp only [List.filter_append, List.map_append]
  have hlead : ((if optTruthy p.text then [textNode (p.text.getD "")] else []).filter
      (fun nd => nd.type == "app")) = [] := by
    split_ifs <;> simp [textNode]
  simpa [hlead] using hc

theorem processPs_inv (c : Nat) (ps : List XElem) :
    (processPs c ps).2.2 = c + (processPs c ps).2.1.length
    ∧ (processPs c ps).2.1.map AppEntry.index
        = List.range' (c + 1) (processPs c ps).2.1.length
    ∧ ((processPs c ps).1.filter (fun nd => nd.type == "app")).map ContentNode.index
        = (processPs c ps).2.1.map (fun a => some a.index) := by
  induction ps generalizing c with
  | nil => simp [processPs]
  | cons p rest ih =>
    rw [processPs]
    have h1 := processP_inv c p
    have h2 := ih (processP c p).2.2
    rcases h1 with ⟨h1a, h1b, h1c⟩
    rcases h2 with ⟨h2a, h2b, h2c⟩
    refine ⟨?_, ?_, ?_⟩
    · simp only [List.length_append]
      omega
    · simp only [List.map_append, List.length_append]
      rw [h1b, h2b, h1a]
      have : c + (processP c p).2.1.length + 1
          = c + 1 + (processP c p).2.1.length := by omega
      rw [this, List.range'_append_1]
      ring_nf
    · simp only [List.filter_append, List.map_append]
      simp [h1c, h2c]

theorem parseSectionContent_inv (div : XElem) (c : Nat) :
    (parseSectionContent div c).2.2 = c + (parseSectionContent div c).2.1.length
    ∧ (parseSectionContent div c).2.1.map AppEntry.index
        = List.range' (c + 1) (parseSectionContent div c).2.1.length
    ∧ ((parseSectionContent div c).1.filter (fun nd => nd.type == "app")).map ContentNode.index
        = (parseSectionContent div c).2.1.map (fun a => some a.index) := by
  unfold parseSectionContent
  exact processPs_inv c (descPs div)

theorem mkSection_apparatus (b : String) (c : Nat) (d : XElem) :
    (mkSection b c d).1.apparatus = (parseSectionContent d c).2.1 := rfl

theorem mkSection_content (b : String) (c : Nat) (d : XElem) :
    (mkSection b c d).1.content = (parseSectionContent d c).1 := rfl

theorem mkSection_counter (b : String) (c : Nat) (d : XElem) :
    (mkSection b c d).2 = (parseSectionContent d c).2.2 := rfl

theorem sectionsGo_indices (b : String) (c : Nat) (divs : List XElem) :
    ((sectionsGo b c divs).flatMap Section.apparatus).map AppEntry.index
      = List.range' (c + 1) ((sectionsGo b c divs).flatMap Section.apparatus).length := by
  induction divs generalizing c with
  | nil => simp [sectionsGo]
  | cons d rest ih =>
    rw [sectionsGo]
    have h1 := parseSectionContent_inv d c
    rcases h1 with ⟨h1a, h1b, -⟩
    simp only [List.flatMap_cons, List.map_append, List.length_append,
      mkSection_apparatus, mkSection_counter]
    rw [h1b, ih, h1a]
    have : c + (parseSectionContent d c).2.1.length + 1
        = c + 1 + (parseSectionContent d c).2.1.length := by omega
    rw [this, List.range'_append_1]
    ring_nf

theorem sectionsGo_pairing (b : String) (c : Nat) (divs : List XElem) :
    (sectionsGo b c divs).map
        (fun s => (s.content.filter (fun nd => nd.type == "app")).map ContentNode.index)
      = (sectionsGo b c divs).map (fun s => s.apparatus.map (fun a => some a.index)) := by
  induction divs generalizing c with
  | nil => simp [sectionsGo]
  | cons d rest ih =>
    rw [sectionsGo]
    have h1 := parseSectionContent_inv d c
    simp only [List.map_cons, mkSection_apparatus, mkSection_content, mkSection_counter]
    rw [ih]
    exact congrArg (· :: _) h1.2.2

/-- C1: across the whole document, the `index` values of the AppEntry/App
pairs are strictly increasing in encounter order (a single counter threaded
from section to section, never reset), and within each section the
`app`-typed ContentNodes carry exactly the indices of their paired
AppEntries, in order. -/
theorem c1_apparatus_indices (root : XElem) :
    (((get_sections root).flatMap Section.apparatus).map AppEntry.index).Pairwise (· < ·)
    ∧ (get_sections root).map
        (fun s => (s.content.filter (fun nd => nd.type == "app")).map ContentNode.index)
      = (get_sections root).map (fun s => s.apparatus.map (fun a => some a.index)) := by
  constructor
  · rw [get_sections, sectionsGo_indices]
    exact List.pairwise_lt_range' _ _
  · rw [get_sections]
    exact sectionsGo_pairing _ _ _

/-!
### Per-handler claims
-/

/-- C9: for every apparatus element, the inline App ContentNode's `note` is
the note of the first reading only (`none` when there are no readings); the
full per-reading notes are available on the paired AppEntry's readings
list. -/
theorem c9_app_first_reading_note (c : Nat) (e : XElem) (next : Option XElem)
    (h : e.tag = "app") :
    ∃ nd entry, (processElement c e next).1 = [nd]
      ∧ (processElement c e next).2.1 = [entry]
      ∧ entry.readings = (findChildren e "rdg").map readingOf
      ∧ nd.note = (entry.readings.head?).bind Reading.note := by
  cases e with
  | mk t attrs tx tl ch =>
    simp only [XElem.tag] at h
    subst h
    rw [processElement.eq_def]
    dsimp only
    rw [if_pos rfl]
    exact ⟨_, _, rfl, rfl, rfl, rfl⟩

/-- Witness for C9: on an apparatus whose first reading has no note and
whose second reading carries one, the App node's note is `none` while the
AppEntry keeps both notes. -/
theorem c9_witness :
    c9exApp.tag = "app"
    ∧ (∃ nd entry, (processElement 0 c9exApp none).1 = [nd]
        ∧ (processElement 0 c9exApp none).2.1 = [entry]
        ∧ entry.readings = (findChildren c9exApp "rdg").map readingOf
        ∧ nd.note = (entry.readings.head?).bind Reading.note)
    ∧ (processElement 0 c9exApp none).1.map ContentNode.note = [none]
    ∧ (processElement 0 c9exApp none).2.1.map
        (fun a => a.readings.map Reading.note) = [[none, some "nb"]] :=
  ⟨rfl, c9_app_first_reading_note 0 c9exApp none rfl,
   by simp [c9exApp, processElement, findChildren, findChild, readingOf, rdgSFold,
     itertext, itertextList, getAttrD, getAttr, optTruthy, stripHash, pyReplace,
     replaceCharsAux, textNode, XElem.tag, XElem.children, XElem.attrs, XElem.text,
     XElem.tail],
   by simp [c9exApp, processElement, findChildren, findChild, readingOf, rdgSFold,
     itertext, itertextList, getAttrD, getAttr, optTruthy, stripHash, pyReplace,
     replaceCharsAux, textNode, XElem.tag, XElem.children, XElem.attrs, XElem.text,
     XElem.tail]⟩

/-- C10: the exposed LexiconEntry identifier is the entry's `xml:id` with
every occurrence of the substring "lex." removed (not only a leading
prefix), defaulting to the empty string when the attribute is absent. -/
theorem c10_lexicon_id :
    (∀ entry : XElem,
      (lexiconEntryOf entry).id = pyReplace (getAttrD entry xmlIdAttr "") "lex." "")
    ∧ (lexiconEntryOf (XElem.mk "entry" [("xml:id", "lex.a.lex.b")] none none [])).id = "a.b"
    ∧ (lexiconEntryOf (XElem.mk "entry" [] none none [])).id = "" := by
  refine ⟨fun entry => rfl, ?_, ?_⟩ <;> decide

/-- C7: the foreign-language equivalent of a lexicon entry follows the
fallback chain — etymology's mentioned-term text when present, otherwise
the first translation-citation quote, otherwise absent. -/
theorem c7_lex_greek_fallback (entry : XElem) :
    (etymMentionedTexts entry ≠ [] →
      (lexiconEntryOf entry).greek = (etymMentionedTexts entry).head?)
    ∧ (etymMentionedTexts entry = [] → translationQuoteTexts entry ≠ [] →
      (lexiconEntryOf entry).greek = (translationQuoteTexts entry).head?)
    ∧ (etymMentionedTexts entry = [] → translationQuoteTexts entry = [] →
      (lexiconEntryOf entry).greek = none) := by
  have hg : (lexiconEntryOf entry).greek = lexGreek entry := rfl
  refine ⟨fun h1 => ?_, fun h1 h2 => ?_, fun h1 h2 => ?_⟩ <;>
    simp [hg, lexGreek, h1, *]

/-- Witness for C7: each arm of the fallback chain on a concrete entry. -/
theorem c7_witness :
    (etymMentionedTexts c7exEntry1 ≠ []
      ∧ (lexiconEntryOf c7exEntry1).greek = (etymMentionedTexts c7exEntry1).head?
      ∧ (lexiconEntryOf c7exEntry1).greek = some "θ")
    ∧ (etymMentionedTexts c7exEntry2 = [] ∧ translationQuoteTexts c7exEntry2 ≠ []
      ∧ (lexiconEntryOf c7exEntry2).greek = (translationQuoteTexts c7exEntry2).head?
      ∧ (lexiconEntryOf c7exEntry2).greek = some "q")
    ∧ (etymMentionedTexts c7exEntry3 = [] ∧ translationQuoteTexts c7exEntry3 = []
      ∧ (lexiconEntryOf c7exEntry3).greek = none) := by
  have e1a : etymMentionedTexts c7exEntry1 = ["θ"] := by
    simp [etymMentionedTexts, c7exEntry1, descendants.eq_def, descList.eq_def,
      textNodes, XElem.tag, XElem.text, XElem.children, XElem.tail]
  have e2a : etymMentionedTexts c7exEntry2 = [] := by
    simp [etymMentionedTexts, c7exEntry2, descendants.eq_def, descList.eq_def,
      textNodes, XElem.tag, XElem.text, XElem.children, XElem.tail]
  have e2b : translationQuoteTexts c7exEntry2 = ["q"] := by
    simp [translationQuoteTexts, c7exEntry2, descendants.eq_def, descList.eq_def,
      textNodes, getAttr, XElem.tag, XElem.text, XElem.children, XElem.tail,
      XElem.attrs]
  have e3a : etymMentionedTexts c7exEntry3 = [] := by
    simp [etymMentionedTexts, c7exEntry3, descendants.eq_def, descList.eq_def]
  have e3b : translationQuoteTexts c7exEntry3 = [] := by
    simp [translationQuoteTexts, c7exEntry3, descendants.eq_def, descList.eq_def]
  refine ⟨⟨by simp [e1a], (c7_lex_greek_fallback c7exEntry1).1 (by simp [e1a]), ?_⟩,
    ⟨e2a, by simp [e2b],
      (c7_lex_greek_fallback c7exEntry2).2.1 e2a (by simp [e2b]), ?_⟩,
    ⟨e3a, e3b, (c7_lex_greek_fallback c7exEntry3).2.2 e3a e3b⟩⟩
  · rw [(c7_lex_greek_fallback c7exEntry1).1 (by simp [e1a]), e1a]
    rfl
  · rw [(c7_lex_greek_fallback c7exEntry2).2.1 e2a (by simp [e2b]), e2b]
    rfl

/-- C5 (amended): the metadata extractor reads the editor and the canonical
URN from the document with fixed fallbacks used when absent, while the
publication place, publication year and source title are fixed constants
never read from the document. -/
theorem c5_metadata (root : XElem) :
    (get_metadata root).editor = ((editorTexts root).head?).getD "აკაკი შანიძე"
    ∧ (get_metadata root).cts_urn
        = ((ctsUrnTexts root).head?).getD "urn:cts:georgian:shanidze.arthron.ed2025"
    ∧ (get_metadata root).publication_place = "თბილისი"
    ∧ (get_metadata root).publication_year = "1990"
    ∧ (get_metadata root).source_title = "ძველი ქართული ენის კათედრის შრომები, 32" :=
  ⟨rfl, rfl, rfl, rfl, rfl⟩

/-- Counterexample to C5 as stated: a document whose header declares the
publication place "Leipzig" still yields the constant place, so the place
field is not read from the document. -/
theorem c5_counterexample : ¬ metadataReadsClaim := by
  intro h
  have hne : pubPlaceTexts c5exDoc ≠ [] := by
    simp [pubPlaceTexts, c5exDoc, descendants.eq_def, descList.eq_def, textNodes,
      XElem.tag, XElem.text, XElem.children, XElem.tail]
  have := (h c5exDoc).2.1 hne
  simp [get_metadata, pubPlaceTexts, c5exDoc, descendants.eq_def, descList.eq_def,
    textNodes, XElem.tag, XElem.text, XElem.children, XElem.tail, editorTexts] at this

/-- C6 (amended): a section's folios list is all direct-child page breaks in
document order followed by all direct-child folio milestones in document
order, regardless of their position relative to the running text. -/
theorem c6_section_folios (b : String) (c : Nat) (div : XElem) :
    (mkSection b c div).1.folios
      = (div.children.filter (fun e => e.tag == "pb")).map folioOf
        ++ (div.children.filter
            (fun m => m.tag == "milestone" ∧ getAttr m "unit" == some "folio")).map
          folioOf := rfl

/-- Counterexample to C6 as stated: a section whose direct children are a
folio milestone followed by a page break yields the page break first, not
the markers in document order. -/
theorem c6_counterexample : ¬ leadingFoliosClaim := by
  intro h
  have := h "u" 0 c6exDiv
  simp [c6exDiv, mkSection, sectionFolios, specLeadingFolios, findChildren,
    isFolioMarker, folioOf, getAttrD, getAttr, stripHash, pyReplace, replaceCharsAux,
    XElem.tag, XElem.children, XElem.attrs] at this

/-- C8: the walk never fails on markup shape — an element of an
unrecognized tag degrades to the generic fallback (leading text, recursion
into children, tail texts), and a cross-reference element with no target
attribute yields a Term node whose target is the empty string. -/
theorem c8_lenient_walk :
    (∀ (c : Nat) (e : XElem) (next : Option XElem),
      e.tag ∉ (["app", "term", "pb", "milestone", "cb", "foreign", "mentioned",
                 "gloss", "persName", "q"] : List String) →
      processElement c e next
        = ((if optTruthy e.text then [textNode (e.text.getD "")] else [])
            ++ (processList c e.children).1,
           (processList c e.children).2.1, (processList c e.children).2.2))
    ∧ (∀ (c : Nat) (e : XElem) (next : Option XElem),
      e.tag = "term" → getAttr e "target" = none →
      (processElement c e next).1
        = [{ type := "term", target := some "", text := some (itertext e) }]) := by
  constructor
  · intro c e next h
    cases e with
    | mk t attrs tx tl ch =>
      simp only [XElem.tag, List.mem_cons, List.not_mem_nil, or_false] at h
      push_neg at h
      obtain ⟨h1, h2, h3, h4, h5, h6, h7, h8, h9, h10⟩ := h
      rw [processElement.eq_def]
      dsimp only
      rw [if_neg h1, if_neg h2, if_neg h3, if_neg (by simp [h4]), if_neg h5,
        if_neg (by simp [h6]), if_neg h7, if_neg h8, if_neg (by simp [h9, h10])]
      simp [XElem.text, XElem.children]
  · intro c e next ht htar
    cases e with
    | mk t attrs tx tl ch =>
      simp only [XElem.tag] at ht
      subst ht
      rw [processElement.eq_def]
      dsimp only
      rw [if_neg (by decide), if_pos rfl]
      have h0 : getAttrD (XElem.mk "term" attrs tx tl ch) "target" "" = "" := by
        simp [getAttrD, htar]
      have h1 : stripHash "" = "" := by decide
      simp [h0, h1]

/-- Witness for C8: an element tagged `seg` goes through the generic
fallback, and a target-less term yields an empty-string target. -/
theorem c8_witness :
    (c8exUnknown.tag ∉ (["app", "term", "pb", "milestone", "cb", "foreign",
        "mentioned", "gloss", "persName", "q"] : List String))
    ∧ processElement 0 c8exUnknown none
        = ((if optTruthy c8exUnknown.text then [textNode (c8exUnknown.text.getD "")] else [])
            ++ (processList 0 c8exUnknown.children).1,
           (processList 0 c8exUnknown.children).2.1,
           (processList 0 c8exUnknown.children).2.2)
    ∧ (processElement 0 c8exUnknown none).1
        = [textNode "a", { type := "folio", ed := some "A", n := some "5" }, textNode "t"]
    ∧ c8exTerm.tag = "term" ∧ getAttr c8exTerm "target" = none
    ∧ (processElement 0 c8exTerm none).1
        = [{ type := "term", target := some "", text := some (itertext c8exTerm) }]
    ∧ itertext c8exTerm = "x" :=
  ⟨by decide,
   c8_lenient_walk.1 0 c8exUnknown none (by decide),
   by simp [c8exUnknown, processElement, processList, textNode, optTruthy, getAttrD,
     getAttr, stripHash, pyReplace, replaceCharsAux, XElem.tag, XElem.children,
     XElem.attrs, XElem.text, XElem.tail],
   rfl, rfl,
   c8_lenient_walk.2 0 c8exTerm none rfl rfl,
   by simp [c8exTerm, itertext, itertextList]⟩

/-- Counterexample to C3 as stated: a mentioned term followed by a gloss
whose foreign span carries no Greek (no language marking at all) still gets
its text as `grc`, though the spec requires a secondary-script span. -/
theorem c3_counterexample : ¬ mentionedGrcClaim := by
  intro h
  have := h 0 c3exMentioned (some c3exGloss) rfl
  simp [c3exMentioned, c3exGloss, processElement, grcLookahead, specGrcLookahead,
    findChild, itertext, itertextList, getAttr, getAttrD, xmlLangAttr, optTruthy,
    XElem.tag, XElem.children, XElem.attrs, XElem.text, XElem.tail] at this

/-- C3 (amended): a Mentioned node's `grc` is populated iff the immediately
following sibling is a gloss element having a direct foreign child of any
language, in which case `grc` is the first such child's concatenated text;
the lookahead never goes beyond that one sibling. -/
theorem c3_mentioned_grc (c : Nat) (e : XElem) (next : Option XElem)
    (h : e.tag = "mentioned") :
    (processElement c e next).1
      = [{ type := "mentioned", ka := some (itertext e), grc := grcLookahead next }]
    ∧ ((grcLookahead next).isSome ↔ ∃ sib f, next = some sib ∧ sib.tag = "gloss"
        ∧ findChild sib "foreign" = some f)
    ∧ (∀ sib f, next = some sib → sib.tag = "gloss" → findChild sib "foreign" = some f →
        grcLookahead next = some (itertext f)) := by
  refine ⟨?_, ?_, ?_⟩
  · cases e with
    | mk t attrs tx tl ch =>
      simp only [XElem.tag] at h
      subst h
      rw [processElement.eq_def]
      dsimp only
      rfl
  · cases next with
    | none => simp [grcLookahead]
    | some sib =>
      by_cases hg : sib.tag = "gloss"
      · simp [grcLookahead, hg, Option.isSome_iff_exists]
      · simp [grcLookahead, hg]
  · intro sib f hn hg hf
    subst hn
    simp [grcLookahead, hg, hf]

/-- Witness for C3 (Scenario C): the mentioned term "ღმერთი" with a Greek
gloss sibling yields `grc` = "θεός"; with no following sibling `grc` is
absent. -/
theorem c3_witness :
    c3exMentionedKa.tag = "mentioned"
    ∧ (processElement 0 c3exMentionedKa (some c3exGlossGrc)).1
        = [{ type := "mentioned", ka := some (itertext c3exMentionedKa),
             grc := grcLookahead (some c3exGlossGrc) }]
    ∧ (processElement 0 c3exMentionedKa (some c3exGlossGrc)).1.map ContentNode.grc
        = [some "θεός"]
    ∧ (processElement 0 c3exMentionedKa none).1.map ContentNode.grc = [none] :=
  ⟨rfl, (c3_mentioned_grc 0 c3exMentionedKa (some c3exGlossGrc) rfl).1,
   by simp [c3exMentionedKa, c3exGlossGrc, processElement, grcLookahead, findChild,
     itertext, itertextList, getAttr, getAttrD, xmlLangAttr, optTruthy,
     XElem.tag, XElem.children, XElem.attrs, XElem.text, XElem.tail],
   by simp [c3exMentionedKa, processElement, grcLookahead, findChild,
     itertext, itertextList, getAttr, getAttrD, xmlLangAttr, optTruthy,
     XElem.tag, XElem.children, XElem.attrs, XElem.text, XElem.tail]⟩

/-- Folding "overwrite accumulator when the pick fires" over a list yields
the last picked value. -/
theorem foldl_or_pick {α β : Type} (pick : α → Option β) (l : List α) :
    ∀ acc : Option β,
      l.foldl (fun acc r => (pick r).or acc) acc = ((l.filterMap pick).getLast?).or acc := by
  induction l with
  | nil => intro acc; simp
  | cons r rest ih =>
    intro acc
    rw [List.foldl_cons, ih]
    cases hp : pick r with
    | none => simp [List.filterMap_cons, hp]
    | some t =>
      simp only [List.filterMap_cons, hp]
      cases hlast : (rest.filterMap pick).getLast? with
      | none =>
        have : rest.filterMap pick = [] := List.getLast?_eq_none_iff.mp hlast
        simp [this]
      | some u =>
        cases hrest : rest.filterMap pick with
        | nil => rw [hrest] at hlast; simp at hlast
        | cons b bs =>
          rw [hrest] at hlast
          simp [List.getLast?_cons_cons, hlast]

/-- The `rdg_s_text` loop keeps the last `S`-witness reading that has
text. -/
theorem rdgSFold_eq_getLast (rdgs : List XElem) :
    rdgSFold rdgs
      = (rdgs.filterMap (fun rdg =>
          if stripHash (getAttrD rdg "wit" "") = "S" ∧ pyStrip (itertext rdg) ≠ ""
          then some (pyStrip (itertext rdg)) else none)).getLast? := by
  have hstep : (fun (acc : Option String) (rdg : XElem) =>
      let wit := stripHash (getAttrD rdg "wit" "")
      let t := pyStrip (itertext rdg)
      if wit = "S" ∧ t ≠ "" then some t else acc)
    = (fun acc rdg => (Option.or (if stripHash (getAttrD rdg "wit" "") = "S"
          ∧ pyStrip (itertext rdg) ≠ ""
        then some (pyStrip (itertext rdg)) else none) acc)) := by
    funext acc rdg
    dsimp only
    split_ifs <;> simp
  rw [rdgSFold, hstep, foldl_or_pick]
  simp

/-- C4 (amended): every apparatus element yields one App node and one
AppEntry; the readings are extracted in source order with a noted reading's
displayed text suppressed; `rdg_s` is the stripped text of the LAST reading
whose witness is `S` and whose text is nonempty; and Scenario A produces
`rdg_s` = "ᲮᲕᲔᲬᲬᲐ" with the two readings in witness order `A`, `S`. -/
theorem c4_app_extraction :
    (∀ (c : Nat) (e : XElem) (next : Option XElem), e.tag = "app" →
      ∃ nd entry, (processElement c e next).1 = [nd]
        ∧ (processElement c e next).2.1 = [entry]
        ∧ entry.readings = (findChildren e "rdg").map readingOf
        ∧ (∀ r ∈ entry.readings, optTruthy r.note → r.text = "")
        ∧ nd.rdg_s = ((findChildren e "rdg").filterMap (fun rdg =>
            if stripHash (getAttrD rdg "wit" "") = "S" ∧ pyStrip (itertext rdg) ≠ ""
            then some (pyStrip (itertext rdg)) else none)).getLast?)
    ∧ (processElement 0 c4exScenarioA none).1.map ContentNode.rdg_s = [some "ᲮᲕᲔᲬᲬᲐ"]
    ∧ (processElement 0 c4exScenarioA none).1.map ContentNode.lem = [some "ᲮᲕᲔᲬᲬᲐ"]
    ∧ (processElement 0 c4exScenarioA none).2.1.map AppEntry.readings
        = [[{ wit := "A", text := "ᲮᲐᲬᲬᲐ", note := none },
            { wit := "S", text := "ᲮᲕᲔᲬᲬᲐ", note := none }]] := by
  refine ⟨?_, ?_, ?_, ?_⟩
  · intro c e next h
    cases e with
    | mk t attrs tx tl ch =>
      simp only [XElem.tag] at h
      subst h
      rw [processElement.eq_def]
      dsimp only
      rw [if_pos rfl]
      refine ⟨_, _, rfl, rfl, rfl, ?_, ?_⟩
      · intro r hr
        simp only [List.mem_map] at hr
        obtain ⟨rdg, -, rfl⟩ := hr
        simp only [readingOf]
        intro hnote
        simp [hnote]
      · exact rdgSFold_eq_getLast _
  · simp [c4exScenarioA, processElement, findChildren, findChild, readingOf, rdgSFold,
      itertext, itertextList, getAttrD, getAttr, optTruthy, stripHash, pyReplace,
      replaceCharsAux, pyStrip, isSpaceChar, textNode, XElem.tag, XElem.children,
      XElem.attrs, XElem.text, XElem.tail]
  · simp [c4exScenarioA, processElement, findChildren, findChild, readingOf, rdgSFold,
      itertext, itertextList, getAttrD, getAttr, optTruthy, stripHash, pyReplace,
      replaceCharsAux, pyStrip, isSpaceChar, textNode, XElem.tag, XElem.children,
      XElem.attrs, XElem.text, XElem.tail]
  · simp [c4exScenarioA, processElement, findChildren, findChild, readingOf, rdgSFold,
      itertext, itertextList, getAttrD, getAttr, optTruthy, stripHash, pyReplace,
      replaceCharsAux, pyStrip, isSpaceChar, textNode, XElem.tag, XElem.children,
      XElem.attrs, XElem.text, XElem.tail]

/-- Counterexample to C4 as stated: with two `S` readings that both have
text, the first one's text is not captured as `rdg_s` (the last wins), so
"that text is captured" fails as a universal statement. -/
theorem c4_counterexample : ¬ appExtractionClaim := by
  intro h
  obtain ⟨nd, entry, h1, h2, h3, h4, h5⟩ := h 0 c4exApp none rfl
  have hmem1 : (XElem.mk "rdg" [("wit", "#S")] (some "x") none [])
      ∈ findChildren c4exApp "rdg" := by
    simp [findChildren, c4exApp, XElem.tag, XElem.children]
  have hmem2 : (XElem.mk "rdg" [("wit", "#S")] (some "y") none [])
      ∈ findChildren c4exApp "rdg" := by
    simp [findChildren, c4exApp, XElem.tag, XElem.children]
  have hx := h5 _ hmem1 (by decide)
    (by simp [itertext, itertextList, pyStrip, isSpaceChar])
  have hy := h5 _ hmem2 (by decide)
    (by simp [itertext, itertextList, pyStrip, isSpaceChar])
  simp [itertext, itertextList, pyStrip, isSpaceChar] at hx hy
  rw [hx] at hy
  simp at hy


/-- Witness for C4: the amended extraction law applied to Scenario A. -/
theorem c4_witness :
    c4exScenarioA.tag = "app"
    ∧ (∃ nd entry, (processElement 0 c4exScenarioA none).1 = [nd]
        ∧ (processElement 0 c4exScenarioA none).2.1 = [entry]
        ∧ entry.readings = (findChildren c4exScenarioA "rdg").map readingOf
        ∧ (∀ r ∈ entry.readings, optTruthy r.note → r.text = "")
        ∧ nd.rdg_s = ((findChildren c4exScenarioA "rdg").filterMap (fun rdg =>
            if stripHash (getAttrD rdg "wit" "") = "S" ∧ pyStrip (itertext rdg) ≠ ""
            then some (pyStrip (itertext rdg)) else none)).getLast?) :=
  ⟨rfl, c4_app_extraction.1 0 c4exScenarioA none rfl⟩


set_option maxRecDepth 8192

/-- Unfolding equation for `descList` on the empty list. -/
theorem descList_nil : descList [] = [] := by
  rw [descList.eq_def]

/-- Unfolding equation for `descList` on a cons. -/
theorem descList_cons (e : XElem) (rest : List XElem) :
    descList (e :: rest) = e :: (descendants e ++ descList rest) := by
  rw [descList.eq_def]

/-- Unfolding equation for `descendants`. -/
theorem descendants_mk (t : String) (a : List (String × String))
    (tx tl : Option String) (ch : List XElem) :
    descendants (XElem.mk t a tx tl ch) = descList ch := by
  rw [descendants.eq_def]

/-- Unfolding equation for `maximalPsList` on the empty list. -/
theorem maximalPsList_nil : maximalPsList [] = [] := by
  rw [maximalPsList.eq_def]

/-- Unfolding equation for `maximalPsList` on a cons. -/
theorem maximalPsList_cons (e : XElem) (rest : List XElem) :
    maximalPsList (e :: rest)
      = (if e.tag = "p" then [e] else maximalPs e) ++ maximalPsList rest := by
  rw [maximalPsList.eq_def]

/-- Unfolding equation for `maximalPs`. -/
theorem maximalPs_mk (t : String) (a : List (String × String))
    (tx tl : Option String) (ch : List XElem) :
    maximalPs (XElem.mk t a tx tl ch) = maximalPsList ch := by
  rw [maximalPs.eq_def]

mutual
/-- The spec's dispatch table and the code's `process_element` emit the
same source-order units, for any counter value. -/
theorem specWalkElement_eq (c : Nat) (e : XElem) (next : Option XElem) :
    specWalkElement e next = (processElement c e next).1.map nodeKey := by
  cases e with
  | mk t attrs tx tl ch =>
    rw [processElement.eq_def, specWalkElement.eq_def]
    dsimp only
    by_cases h1 : t = "app"
    · rw [if_pos h1, if_pos h1]
      rfl
    · rw [if_neg h1, if_neg h1]
      by_cases h2 : t = "term"
      · rw [if_pos h2, if_pos h2]
        rfl
      · rw [if_neg h2, if_neg h2]
        by_cases h3 : t = "pb"
        · rw [if_pos h3, if_pos h3]
          rfl
        · rw [if_neg h3, if_neg h3]
          by_cases h4 : t = "milestone" ∧ getAttr (XElem.mk t attrs tx tl ch) "unit" = some "folio"
          · rw [if_pos h4, if_pos h4]
            rfl
          · rw [if_neg h4, if_neg h4]
            by_cases h5 : t = "cb"
            · rw [if_pos h5, if_pos h5]
              dsimp only [List.map_cons, List.map_nil]
              simp only [nodeKey]
              norm_num
              split_ifs <;> simp_all
            · rw [if_neg h5, if_neg h5]
              by_cases h6 : t = "foreign" ∧ getAttr (XElem.mk t attrs tx tl ch) xmlLangAttr = some "grc"
              · rw [if_pos h6, if_pos h6]
                rfl
              · rw [if_neg h6, if_neg h6]
                by_cases h7 : t = "mentioned"
                · rw [if_pos h7, if_pos h7]
                  rfl
                · rw [if_neg h7, if_neg h7]
                  by_cases h8 : t = "gloss"
                  · rw [if_pos h8, if_pos h8]
                    rfl
                  · rw [if_neg h8, if_neg h8]
                    by_cases h9 : t = "persName" ∨ t = "q"
                    · rw [if_pos h9, if_pos h9]
                      rfl
                    · rw [if_neg h9, if_neg h9]
                      rw [specWalkList_eq c ch]
                      dsimp only
                      simp only [List.map_append]
                      congr 1
                      split_ifs <;> rfl
termination_by sizeOf e

/-- The spec's child walk and the code's child loop emit the same
source-order units, for any counter value. -/
theorem specWalkList_eq (c : Nat) (es : List XElem) :
    specWalkList es = (processList c es).1.map nodeKey := by
  cases es with
  | nil =>
    rw [specWalkList.eq_def, processList.eq_def]
    rfl
  | cons e rest =>
    rw [specWalkList.eq_def, processList.eq_def]
    dsimp only
    rw [specWalkElement_eq c e rest.head?,
      specWalkList_eq (processElement c e rest.head?).2.2 rest]
    simp only [List.map_append, List.append_assoc]
    congr 1
    congr 1
    split_ifs <;> rfl
termination_by sizeOf es
end

/-- One paragraph block's content projects to the spec's block units. -/
theorem processP_key (c : Nat) (p : XElem) :
    (processP c p).1.map nodeKey = specBlockUnits p := by
  unfold processP specBlockUnits
  dsimp only
  rw [specWalkList_eq c p.children]
  simp only [List.map_append]
  congr 1
  split_ifs <;> rfl

/-- The block loop's content projects to the concatenation of the blocks'
unit sequences. -/
theorem processPs_key (c : Nat) (ps : List XElem) :
    (processPs c ps).1.map nodeKey = ps.flatMap specBlockUnits := by
  induction ps generalizing c with
  | nil => simp [processPs]
  | cons p rest ih =>
    rw [processPs]
    dsimp only
    simp only [List.flatMap_cons, List.map_append]
    rw [processP_key c p, ih]

mutual
/-- When no collected paragraph contains another paragraph, the code's
descendant-paragraph list coincides with the maximal-block list. -/
theorem descPs_eq_maximalPs (e : XElem) (h : ∀ p ∈ descPs e, descPs p = []) :
    descPs e = maximalPs e := by
  cases e with
  | mk t attrs tx tl ch =>
    have h' : ∀ p ∈ (descList ch).filter (fun c => c.tag == "p"), descPs p = [] := by
      intro p hp
      apply h
      simpa [descPs, descendants_mk] using hp
    have := descList_filter_eq ch h'
    simpa [descPs, descendants_mk, maximalPs_mk] using this
termination_by sizeOf e

/-- List version of `descPs_eq_maximalPs`. -/
theorem descList_filter_eq (es : List XElem)
    (h : ∀ p ∈ (descList es).filter (fun c => c.tag == "p"), descPs p = []) :
    (descList es).filter (fun c => c.tag == "p") = maximalPsList es := by
  cases es with
  | nil =>
    rw [descList_nil, maximalPsList_nil]
    rfl
  | cons e rest =>
    rw [descList_cons, maximalPsList_cons, List.filter_cons, List.filter_append]
    rw [descList_cons, List.filter_cons, List.filter_append] at h
    have hrest : ∀ p ∈ (descList rest).filter (fun c => c.tag == "p"), descPs p = [] := by
      intro p hp
      apply h
      split_ifs
      · exact List.mem_cons_of_mem _ (List.mem_append_right _ hp)
      · exact List.mem_append_right _ hp
    have ihrest := descList_filter_eq rest hrest
    by_cases hp : e.tag = "p"
    · have he : descPs e = [] := by
        apply h
        rw [if_pos (by simp [hp])]
        exact List.mem_cons_self _ _
      have hde : (descendants e).filter (fun c => c.tag == "p") = [] := by
        simpa [descPs] using he
      rw [if_pos (by simp [hp]), if_pos hp, hde, ihrest]
      rfl
    · have hdesc : ∀ q ∈ descPs e, descPs q = [] := by
        intro q hq
        apply h
        have hq' : q ∈ (descendants e).filter (fun c => c.tag == "p") := by
          simpa [descPs] using hq
        split_ifs
        · exact List.mem_cons_of_mem _ (List.mem_append_left _ hq')
        · exact List.mem_append_left _ hq'
      have ihe := descPs_eq_maximalPs e hdesc
      rw [if_neg (by simp [hp]), if_neg hp, ihrest, ← ihe]
      simp [descPs]
termination_by sizeOf es
end

/-- Bridge from the boolean no-nesting check to the block-list equality. -/
theorem noNestedP_descPs (div : XElem) (h : noNestedP div = true) :
    descPs div = maximalPs div := by
  apply descPs_eq_maximalPs
  intro p hp
  have := List.all_eq_true.mp h p hp
  simpa [List.isEmpty_iff] using this

/-- C2 (amended): for every section whose paragraph blocks are not nested
inside one another, the walker's ContentNode sequence projects exactly to
the source-order unit sequence prescribed by the spec's dispatch — nothing
dropped, reordered or duplicated relative to source order. -/
theorem c2_order_round_trip (div : XElem) (c : Nat) (h : noNestedP div = true) :
    (parseSectionContent div c).1.map nodeKey = specSectionUnits div := by
  unfold parseSectionContent specSectionUnits
  rw [processPs_key, noNestedP_descPs div h]

/-- Counterexample to C2 as stated: a paragraph nested inside another
paragraph is walked twice (once as a child, once as its own block), so its
text is duplicated in the ContentNode sequence. -/
theorem c2_counterexample : ¬ orderRoundTripClaim := by
  intro h
  have := h c2exDiv 0
  simp [c2exDiv, parseSectionContent, descPs, descendants_mk, descList_cons,
    descList_nil, processPs, processP, processList, processElement,
    specSectionUnits, maximalPs_mk, maximalPsList_cons, maximalPsList_nil,
    specBlockUnits, specWalkList, specWalkElement, nodeKey, textNode, optTruthy,
    XElem.tag, XElem.children, XElem.attrs, XElem.text, XElem.tail] at this

/-- Witness for C2: the order round-trip law on a concrete section with
text, a term and a page break. -/
theorem c2_witness :
    noNestedP c2exGoodDiv = true
    ∧ (parseSectionContent c2exGoodDiv 0).1.map nodeKey = specSectionUnits c2exGoodDiv := by
  have hn : noNestedP c2exGoodDiv = true := by
    simp [noNestedP, c2exGoodDiv, descPs, descendants_mk, descList_cons, descList_nil,
      XElem.tag, XElem.children]
  exact ⟨hn, c2_order_round_trip c2exGoodDiv 0 hn⟩

end Arthron
